import Mathlib

/-!
# HellOS kernel core: heap allocator and process scheduler, shallowly embedded

This development embeds `src/x86_64/kernel/memory.c` and
`src/x86_64/kernel/process.c` of the HellOS repository.

Conventions of the embedding:
* Machine integers are `Nat` with explicit reductions: `uint32` stores are
  taken `% 2^32`, `size_t`/`uint64` arithmetic is taken `% 2^64` where the C
  expression is computed in that type.  Wrapping subtraction `a - b` on a
  w-bit unsigned type is `(a + 2^w - b % 2^w) % 2^w`.
* The heap's intrusive doubly linked block list (`next`/`prev` pointers,
  always kept in address order, covering the arena) is represented as a
  `List Block` in address order.  The header address of block `i` is
  `HEAP_START` plus the footprints (header + payload) of the blocks before
  it; pointers handed out by `malloc` are payload addresses (header + 32).
  A pointer that is not the payload address of some block in the list is
  modelled as failing `validate_block` (in the C source such a pointer
  reads whatever bytes happen to be at that address as a magic field; the
  model conservatively treats it as carrying an invalid magic).
* Payload byte contents are modelled separately (`HeapMem`) as a function
  from addresses to byte values; only `memset` writes it.  Block headers
  are represented structurally, not as bytes.
-/

set_option maxRecDepth 100000

namespace HellOS

/-- 2^32, the modulus of `uint32` arithmetic. -/
def U32 : Nat := 2 ^ 32

/-- 2^64, the modulus of `size_t`/`uint64` arithmetic. -/
def U64 : Nat := 2 ^ 64

/-- Wrapping 64-bit subtraction `a - b` (operands already reduced or not). -/
def sub64 (a b : Nat) : Nat := (a % U64 + U64 - b % U64) % U64

/-- Wrapping 32-bit subtraction. -/
def sub32 (a b : Nat) : Nat := (a % U32 + U32 - b % U32) % U32

/-- `#define HEAP_START 0x200000` -/
def HEAP_START : Nat := 0x200000

/-- `#define HEAP_SIZE 0x800000` -/
def HEAP_SIZE : Nat := 0x800000

/-- `sizeof(memory_block_t)` on x86_64: uint32 size (4) + bool (1, padded
to 8 for the pointer members) + two 8-byte pointers + uint32 magic (4,
padded to 8 for overall alignment) = 32 bytes. -/
def HEADER_SIZE : Nat := 32

/-- `#define BLOCK_MAGIC_ALLOCATED 0xDEADBEEF` -/
def BLOCK_MAGIC_ALLOCATED : Nat := 0xDEADBEEF

/-- `#define BLOCK_MAGIC_FREE 0xFEEDFACE` -/
def BLOCK_MAGIC_FREE : Nat := 0xFEEDFACE

/-- `ALIGN_UP(size, 8)` on a `size_t`: `((size + 8 - 1) & ~(8 - 1))`,
computed mod 2^64; clearing the low three bits is division-then-
multiplication by 8. -/
def alignUp8 (n : Nat) : Nat := ((n + 7) % U64) / 8 * 8

/-- `struct memory_block_s`: payload size (`uint32 size`), free flag
(`bool is_free`), and corruption-detection tag (`uint32 magic`).  The
`next`/`prev` pointers are represented by the position of the block in
the address-ordered `List Block`. -/
structure Block where
  size : Nat
  is_free : Bool
  magic : Nat
deriving Repr, DecidableEq, Inhabited

/-- `struct memory_stats_s`. -/
structure MemStats where
  total_memory : Nat
  used_memory : Nat
  free_memory : Nat
  allocated_blocks : Nat
  free_blocks : Nat
  corrupted_blocks : Nat
deriving Repr, DecidableEq, Inhabited

/-- The allocator's file-scope state: `heap_start .. heap_end` hold the
block list (modelled as `blocks`), `memory_stats`, and the
`memory_initialized` flag (field named `inited` here). -/
structure HeapState where
  blocks : List Block
  stats : MemStats
  inited : Bool
deriving Repr, DecidableEq, Inhabited

/-- The state of the C program's globals before any call: zeroed statics,
`memory_initialized == false`, no block list. -/
def bootHeap : HeapState :=
  { blocks := []
    stats := ⟨0, 0, 0, 0, 0, 0⟩
    inited := false }

/-- The heap produced by `init_memory_manager`: one free block whose
payload is the arena minus one header, and the initial statistics. -/
def freshHeap : HeapState :=
  { blocks := [⟨HEAP_SIZE - HEADER_SIZE, true, BLOCK_MAGIC_FREE⟩]
    stats :=
      { total_memory := HEAP_SIZE
        used_memory := HEADER_SIZE
        free_memory := HEAP_SIZE - HEADER_SIZE
        allocated_blocks := 0
        free_blocks := 1
        corrupted_blocks := 0 }
    inited := true }

/-- `init_memory_manager`: unconditionally (there is no re-invocation
check in the source) rebuilds the initial free block and statistics,
whatever the previous state was. -/
def init_memory_manager (_st : HeapState) : HeapState := freshHeap

/-- `find_free_block`: walk the block list in address order, returning the
index of the first free block whose payload size is at least `sz`. -/
def find_free_block (bs : List Block) (sz : Nat) : Option Nat :=
  match bs with
  | [] => none
  | b :: rest =>
    if b.is_free ∧ sz ≤ b.size then some 0
    else (find_free_block rest sz).map (· + 1)

/-- `split_block(block, size)` at list index `i`: guarded by
`block->size <= size + sizeof(memory_block_t)` (a `size_t` comparison);
otherwise the block keeps `size` (a `uint32` store) and a new free block
with the remaining payload is linked immediately after it.  The second
component is the number of `memory_stats.free_blocks++` the call performs
(`1` when the split happens, `0` when the guard rejects it). -/
def split_block (bs : List Block) (i sz : Nat) : List Block × Nat :=
  match bs, i with
  | [], _ => ([], 0)
  | b :: rest, 0 =>
    if b.size ≤ (sz + HEADER_SIZE) % U64 then (b :: rest, 0)
    else
      ({ size := sz % U32, is_free := b.is_free, magic := b.magic } ::
        { size := sub64 b.size (sz + HEADER_SIZE) % U32
          is_free := true
          magic := BLOCK_MAGIC_FREE } :: rest, 1)
  | b :: rest, i + 1 =>
    match split_block rest i sz with
    | (rest1, k) => (b :: rest1, k)

/-- `coalesce_blocks(block)` for the block at index `i`: if it exists and
is free, first absorb the immediately following block when that one is
free (`block->size += block->next->size + sizeof(memory_block_t)`, a
`uint32` store), then absorb the resulting block into the immediately
preceding block when that one is free.  Returns the new list together
with the number of merges performed (each merge does
`memory_stats.free_blocks--`). -/
def coalesce_blocks (bs : List Block) (i : Nat) : List Block × Nat :=
  let pre := bs.take i
  match bs.drop i with
  | [] => (bs, 0)
  | b :: post =>
    if b.is_free = false then (bs, 0)
    else
      let fwd : Block × List Block × Nat :=
        match post with
        | n :: rest =>
          if n.is_free then
            ({ b with size := (b.size + n.size + HEADER_SIZE) % U32 }, rest, 1)
          else (b, post, 0)
        | [] => (b, [], 0)
      match fwd with
      | (b1, post1, m1) =>
        match pre.getLast? with
        | some p =>
          if p.is_free then
            (pre.dropLast ++
              { p with size := (p.size + b1.size + HEADER_SIZE) % U32 } :: post1,
              m1 + 1)
          else (pre ++ b1 :: post1, m1)
        | none => (pre ++ b1 :: post1, m1)

/-- Header address of block `i`: `HEAP_START` plus the footprints of the
blocks before it (the list covers the arena contiguously). -/
def headerAddr (bs : List Block) (i : Nat) : Nat :=
  HEAP_START + ((bs.take i).map (fun b => b.size + HEADER_SIZE)).sum

/-- Find the index of the block whose *header* lies at address `a`
(`(memory_block_t*)((uint8_t*)ptr - sizeof(memory_block_t))` in the
source); addresses that are not a block boundary find nothing. -/
def blockIdxAt (bs : List Block) (base a : Nat) : Option Nat :=
  match bs with
  | [] => none
  | b :: rest =>
    if base = a then some 0
    else (blockIdxAt rest (base + b.size + HEADER_SIZE) a).map (· + 1)

/-- `validate_block` for the header at address `a`: the block must lie
within heap bounds — i.e. be a block of the list — and carry one of the
two valid magic values. -/
def validate_block (bs : List Block) (a : Nat) : Bool :=
  match blockIdxAt bs HEAP_START a with
  | none => false
  | some i =>
    let b := bs.getD i default
    decide (b.magic = BLOCK_MAGIC_ALLOCATED ∨ b.magic = BLOCK_MAGIC_FREE)

/-- `malloc(size)`: returns the new state and the granted payload address
(`0` stands for the C `NULL`). -/
def malloc (st : HeapState) (size : Nat) : HeapState × Nat :=
  if st.inited = false then (st, 0)
  else if size = 0 then (st, 0)
  else
    let sz := alignUp8 size
    match find_free_block st.blocks sz with
    | none => (st, 0)
    | some i =>
      let split :=
        if (st.blocks.getD i default).size > (sz + HEADER_SIZE + 8) % U64 then
          split_block st.blocks i sz
        else (st.blocks, 0)
      let bs1 := split.1
      let b := bs1.getD i default
      let bs2 := bs1.set i { b with is_free := false, magic := BLOCK_MAGIC_ALLOCATED }
      let s := st.stats
      let stats1 :=
        { s with
          used_memory := (s.used_memory + b.size) % U64
          free_memory := sub64 s.free_memory b.size
          allocated_blocks := (s.allocated_blocks + 1) % U32
          free_blocks := sub32 ((s.free_blocks + split.2) % U32) 1 }
      ({ st with blocks := bs2, stats := stats1 }, headerAddr bs2 i + HEADER_SIZE)

/-- `free(ptr)`: `ptr` is a payload address; `0` is `NULL`. -/
def free (st : HeapState) (ptr : Nat) : HeapState :=
  if ptr = 0 ∨ st.inited = false then st
  else
    match blockIdxAt st.blocks HEAP_START (ptr - HEADER_SIZE) with
    | none =>
      { st with stats :=
          { st.stats with corrupted_blocks := (st.stats.corrupted_blocks + 1) % U32 } }
    | some i =>
      let b := st.blocks.getD i default
      if ¬(b.magic = BLOCK_MAGIC_ALLOCATED ∨ b.magic = BLOCK_MAGIC_FREE) then
        { st with stats :=
            { st.stats with corrupted_blocks := (st.stats.corrupted_blocks + 1) % U32 } }
      else
        let bs1 := st.blocks.set i { b with is_free := true, magic := BLOCK_MAGIC_FREE }
        let s := st.stats
        let stats1 :=
          { s with
            used_memory := sub64 s.used_memory b.size
            free_memory := (s.free_memory + b.size) % U64
            allocated_blocks := sub32 s.allocated_blocks 1
            free_blocks := (s.free_blocks + 1) % U32 }
        match coalesce_blocks bs1 i with
        | (bs2, merges) =>
          { st with blocks := bs2
                    stats := { stats1 with free_blocks := sub32 stats1.free_blocks merges } }

/-- `realloc(ptr, size)`.  The payload `memcpy` of the success path acts
only on byte contents, which live outside `HeapState` (see `HeapMem`). -/
def realloc (st : HeapState) (ptr size : Nat) : HeapState × Nat :=
  if ptr = 0 then malloc st size
  else if size = 0 then (free st ptr, 0)
  else
    match blockIdxAt st.blocks HEAP_START (ptr - HEADER_SIZE) with
    | none => (st, 0)
    | some i =>
      let b := st.blocks.getD i default
      if ¬(b.magic = BLOCK_MAGIC_ALLOCATED ∨ b.magic = BLOCK_MAGIC_FREE) then (st, 0)
      else if size ≤ b.size then (st, ptr)
      else
        match malloc st size with
        | (st1, 0) => (st1, 0)
        | (st1, newPtr) => (free st1 ptr, newPtr)

/-- `memset(ptr, value, size)`: the loop `for (i = 0; i < size; i++)
p[i] = (uint8_t)value;` over a byte store modelled as `Nat → Nat`. -/
def memset (m : Nat → Nat) (dst val : Nat) : Nat → (Nat → Nat)
  | 0 => m
  | n + 1 => fun a => if a = dst + n then val % 256 else memset m dst val n a

/-- Allocator state together with the payload byte store (block headers
are kept structurally in `HeapState` and are not part of `mem`). -/
structure HeapMem where
  st : HeapState
  mem : Nat → Nat

/-- `calloc(num, size)`: `size_t total_size = num * size` (wrapping
multiplication, no overflow check), `malloc`, and on success `memset`
of the requested byte count to zero. -/
def calloc (s : HeapMem) (num size : Nat) : HeapMem × Nat :=
  let total := num * size % U64
  match malloc s.st total with
  | (st1, ptr) =>
    if ptr ≠ 0 then ({ st := st1, mem := memset s.mem ptr 0 total }, ptr)
    else ({ st := st1, mem := s.mem }, ptr)

/-- The allocator's public mutating operations after `init`. -/
inductive HeapOp where
  | mallocOp (size : Nat)
  | freeOp (ptr : Nat)
  | callocOp (num size : Nat)
  | reallocOp (ptr size : Nat)

/-- Effect of one public operation on the allocator state (the byte store
is irrelevant to the block list and statistics). -/
def applyOp (st : HeapState) : HeapOp → HeapState
  | .mallocOp n => (malloc st n).1
  | .freeOp p => free st p
  | .callocOp num sz => ((calloc ⟨st, fun _ => 0⟩ num sz).1).st
  | .reallocOp p n => (realloc st p n).1

/-- Heap states reachable from `init_memory_manager` by any sequence of
`malloc`/`free`/`calloc`/`realloc` calls. -/
inductive ReachableHeap : HeapState → Prop where
  | init : ReachableHeap freshHeap
  | step {st : HeapState} (h : ReachableHeap st) (op : HeapOp) :
      ReachableHeap (applyOp st op)

/-! ## Process table and scheduler (`process.c`) -/

/-- `#define MAX_PROCESSES 64` -/
def MAX_PROCESSES : Nat := 64

/-- `#define STACK_SIZE 0x8000` (memory_layout.h) -/
def STACK_SIZE : Nat := 0x8000

/-- `PRIORITY_OVERLORD = 0` -/
def PRIORITY_OVERLORD : Nat := 0

/-- `PRIORITY_DEMON = 1` -/
def PRIORITY_DEMON : Nat := 1

/-- `PRIORITY_SOUL = 2` -/
def PRIORITY_SOUL : Nat := 2

/-- `PRIORITY_DAMNED = 3` -/
def PRIORITY_DAMNED : Nat := 3

/-- `process_state_t` (READY = 0 is also the zero-initialized value). -/
inductive PState where
  | ready
  | running
  | waiting
  | terminated
  | zombie
deriving Repr, DecidableEq, Inhabited

/-- `struct process` (kernel.h).  The `registers[16]` array (written with
zeros, never read), the `parent`/`children`/`next_sibling` pointers (the
parent is also recorded as `parent_pid`; the child links are only ever
set to NULL), and the intrusive `next`/`prev` pointers (represented by
list positions in `ProcState`) are not carried as fields. -/
structure Proc where
  pid : Nat
  name : String
  state : PState
  priority : Nat
  stack_pointer : Nat
  stack_base : Nat
  heap_start : Nat
  heap_size : Nat
  entry_point : Nat
  instruction_pointer : Nat
  parent_pid : Nat
  cpu_time : Nat
  last_scheduled : Nat
  time_slice : Nat
  is_demon : Bool
  is_kernel_mode : Bool
  is_suspended : Bool
  creation_time : Nat
deriving Repr, DecidableEq, Inhabited

/-- `struct process_stats_s`. -/
structure ProcStats where
  total_processes : Nat
  active_processes : Nat
  demon_processes : Nat
  soul_processes : Nat
  zombie_processes : Nat
  context_switches : Nat
  total_cpu_time : Nat
deriving Repr, DecidableEq, Inhabited

/-- The process manager's file-scope state.  `procs` is the static
`processes[MAX_PROCESSES]` array; `ready_queue` is the queue in link
order, holding *slot indices* (the C code links `process_t` nodes through
their intrusive `next` field).  The separate `process_list` head is not
modelled: it threads the same `next` field that `add_to_ready_queue`
overwrites, so the source's process list is clobbered as soon as a
process is enqueued, and no operation modelled here reads it.
`sys_time` is `get_system_time`'s static `time_counter`. -/
structure ProcState where
  heap : HeapState
  procs : List Proc
  ready_queue : List Nat
  current_process : Option Nat
  next_pid : Nat
  process_count : Nat
  inited : Bool
  stats : ProcStats
  sys_time : Nat
deriving Repr, DecidableEq, Inhabited

/-- `get_system_time`: `return ++time_counter;` on a static `uint64_t`. -/
def get_system_time (st : ProcState) : ProcState × Nat :=
  ({ st with sys_time := (st.sys_time + 1) % U64 }, (st.sys_time + 1) % U64)

/-- `find_process_by_pid`: index of the first table slot holding `pid`
(the `for` loop over `processes[MAX_PROCESSES]`). -/
def find_process_by_pid (procs : List Proc) (pid : Nat) : Option Nat :=
  match procs with
  | [] => none
  | p :: rest =>
    if p.pid = pid then some 0
    else (find_process_by_pid rest pid).map (· + 1)

/-- The walk of `add_to_ready_queue`: starting from the queue head,
advance while the successor exists and has priority `≤ prio`, then link
the new node behind the stopping point. -/
def rq_insert_walk (procs : List Proc) (prio i : Nat) : List Nat → List Nat
  | [] => [i]
  | [j] => [j, i]
  | j :: k :: rest =>
    if (procs.getD k default).priority ≤ prio then
      j :: rq_insert_walk procs prio i (k :: rest)
    else j :: i :: k :: rest

/-- `add_to_ready_queue(process)` for slot `i`: only READY processes are
inserted; a strictly higher priority (lower value) than the head goes to
the front, otherwise the walk inserts after the last node of priority
`≤` the new process's. -/
def add_to_ready_queue (st : ProcState) (i : Nat) : ProcState :=
  if (st.procs.getD i default).state ≠ PState.ready then st
  else
    match st.ready_queue with
    | [] => { st with ready_queue := [i] }
    | j :: rest =>
      if (st.procs.getD i default).priority < (st.procs.getD j default).priority then
        { st with ready_queue := i :: j :: rest }
      else
        { st with ready_queue :=
            rq_insert_walk st.procs (st.procs.getD i default).priority i (j :: rest) }

/-- `remove_from_ready_queue(process)` for slot `i`: unlink the head if
it is the process, otherwise unlink the first matching node found by the
walk. -/
def remove_from_ready_queue (st : ProcState) (i : Nat) : ProcState :=
  match st.ready_queue with
  | [] => st
  | j :: rest =>
    if j = i then { st with ready_queue := rest }
    else { st with ready_queue := j :: rest.erase i }

/-- `save_process_context(process)`: two separate `get_system_time()`
calls (each advancing the counter) accumulate elapsed time into the
process's `cpu_time` and the global `total_cpu_time`. -/
def save_process_context (st : ProcState) (i : Nat) : ProcState :=
  let t1 := get_system_time st
  let p := t1.1.procs.getD i default
  let st1 :=
    { t1.1 with procs :=
        (t1.1.procs.set i
          { p with cpu_time := (p.cpu_time + sub64 t1.2 p.last_scheduled) % U64 }) }
  let t2 := get_system_time st1
  let q := t2.1.procs.getD i default
  { t2.1 with stats :=
      { t2.1.stats with total_cpu_time :=
          (t2.1.stats.total_cpu_time + sub64 t2.2 q.last_scheduled) % U64 } }

/-- `schedule_next_process`: pop the ready-queue head; if there is an
outgoing distinct current process, save its context and re-enqueue it
*only if its state is still RUNNING*; then mark the popped process
RUNNING, stamp its schedule time, and count the context switch
(`load_process_context` is a no-op in the source). -/
def schedule_next_process (st : ProcState) : ProcState :=
  match st.ready_queue with
  | [] => st
  | next :: rest =>
    let st1 := { st with ready_queue := rest }
    let st2 :=
      match st1.current_process with
      | some c =>
        if c ≠ next then
          let st3 := save_process_context st1 c
          if (st3.procs.getD c default).state = PState.running then
            add_to_ready_queue
              { st3 with procs :=
                  st3.procs.set c { st3.procs.getD c default with state := PState.ready } }
              c
          else st3
        else st1
      | none => st1
    let t := get_system_time st2
    let p := t.1.procs.getD next default
    let st5 :=
      { t.1 with
        procs := t.1.procs.set next { p with state := PState.running, last_scheduled := t.2 }
        current_process := some next }
    { st5 with stats :=
        { st5.stats with context_switches := (st5.stats.context_switches + 1) % U64 } }

/-- `create_process(name, entry_point, priority, is_demon)`: returns the
new state and the claimed slot index (`none` for a NULL result). -/
def create_process (st : ProcState) (name : String) (entry priority : Nat)
    (is_demon : Bool) : ProcState × Option Nat :=
  if st.inited = false ∨ MAX_PROCESSES ≤ st.process_count then (st, none)
  else
    match st.procs.findIdx? (fun p => p.pid == 0) with
    | none => (st, none)
    | some i =>
      let pid := st.next_pid
      let st1 := { st with next_pid := (st.next_pid + 1) % U32 }
      let p0 := st1.procs.getD i default
      let p1 :=
        { p0 with
          pid := pid
          name := name.take 31
          state := PState.ready
          priority := priority
          is_demon := is_demon
          is_kernel_mode := is_demon
          is_suspended := false }
      match malloc st1.heap STACK_SIZE with
      | (h1, 0) =>
        ({ st1 with heap := h1, procs := st1.procs.set i { p1 with pid := 0 } }, none)
      | (h1, sb) =>
        let p2 :=
          { p1 with
            stack_base := sb
            stack_pointer := (sb + STACK_SIZE) % U64
            heap_start := 0
            heap_size := 0
            entry_point := entry
            instruction_pointer := entry
            parent_pid :=
              match st1.current_process with
              | some c => (st1.procs.getD c default).pid
              | none => 0
            cpu_time := 0
            last_scheduled := 0
            time_slice :=
              if priority = PRIORITY_OVERLORD then 100
              else if priority = PRIORITY_DEMON then 50
              else if priority = PRIORITY_SOUL then 25
              else 10 }
      let st2 := { st1 with heap := h1, procs := st1.procs.set i p2 }
      let st3 := add_to_ready_queue st2 i
      let st4 :=
        { st3 with
          process_count := (st3.process_count + 1) % U32
          stats :=
            { st3.stats with
              total_processes := (st3.stats.total_processes + 1) % U32
              active_processes := (st3.stats.active_processes + 1) % U32
              demon_processes :=
                if is_demon then (st3.stats.demon_processes + 1) % U32
                else st3.stats.demon_processes
              soul_processes :=
                if is_demon then st3.stats.soul_processes
                else (st3.stats.soul_processes + 1) % U32 } }
      let t := get_system_time st4
      let p3 := t.1.procs.getD i default
      ({ t.1 with procs := t.1.procs.set i { p3 with creation_time := t.2 } }, some i)

/-- `terminate_process(pid)`. -/
def terminate_process (st : ProcState) (pid : Nat) : ProcState :=
  match find_process_by_pid st.procs pid with
  | none => st
  | some i =>
    let p := st.procs.getD i default
    if p.state = PState.terminated then st
    else if p.pid = 0 then st
    else
      let st1 := { st with procs := st.procs.set i { p with state := PState.terminated } }
      let st2 := remove_from_ready_queue st1 i
      let st3 :=
        if p.stack_base ≠ 0 then
          { st2 with
            heap := free st2.heap p.stack_base
            procs := st2.procs.set i { st2.procs.getD i default with stack_base := 0 } }
        else st2
      let st4 :=
        if p.heap_start ≠ 0 then
          { st3 with
            heap := free st3.heap p.heap_start
            procs := st3.procs.set i { st3.procs.getD i default with heap_start := 0 } }
        else st3
      let st5 :=
        { st4 with stats :=
            { st4.stats with
              active_processes := sub32 st4.stats.active_processes 1
              demon_processes :=
                if p.is_demon then sub32 st4.stats.demon_processes 1
                else st4.stats.demon_processes
              soul_processes :=
                if p.is_demon then st4.stats.soul_processes
                else sub32 st4.stats.soul_processes 1 } }
      let st6 := if st5.current_process = some i then schedule_next_process st5 else st5
      { st6 with
        procs := st6.procs.set i { st6.procs.getD i default with pid := 0 }
        process_count := sub32 st6.process_count 1 }

/-- `yield_process`: set the current process READY, then reschedule. -/
def yield_process (st : ProcState) : ProcState :=
  match st.current_process with
  | none => st
  | some c =>
    schedule_next_process
      { st with procs := st.procs.set c { st.procs.getD c default with state := PState.ready } }

/-- `suspend_process(pid)`: only a RUNNING process is suspended. -/
def suspend_process (st : ProcState) (pid : Nat) : ProcState :=
  match find_process_by_pid st.procs pid with
  | none => st
  | some i =>
    let p := st.procs.getD i default
    if p.state = PState.running then
      let st1 :=
        { st with procs :=
            st.procs.set i { p with is_suspended := true, state := PState.waiting } }
      let st2 := remove_from_ready_queue st1 i
      if st2.current_process = some i then schedule_next_process st2 else st2
    else st

/-- `resume_process(pid)`: only a process with `is_suspended` set goes
back to READY and into the queue. -/
def resume_process (st : ProcState) (pid : Nat) : ProcState :=
  match find_process_by_pid st.procs pid with
  | none => st
  | some i =>
    let p := st.procs.getD i default
    if p.is_suspended then
      add_to_ready_queue
        { st with procs :=
            st.procs.set i { p with is_suspended := false, state := PState.ready } }
        i
    else st

/-- `process_scheduler` — the timer tick entry: one `get_system_time()`
call (advancing the counter even when nothing expires), and a reschedule
when the elapsed time reaches the current process's slice. -/
def process_scheduler (st : ProcState) : ProcState :=
  if st.inited = false then st
  else
    match st.current_process with
    | none => st
    | some c =>
      let t := get_system_time st
      let st1 := t.1
      let p := st1.procs.getD c default
      if p.time_slice ≤ sub64 t.2 p.last_scheduled then
        if p.state = PState.running then
          schedule_next_process
            { st1 with procs := st1.procs.set c { p with state := PState.ready } }
        else st1
      else st1

/-- A table slot as left by the `for` loop at the top of
`init_process_manager` (pid 0, state TERMINATED; all other fields are
the zero values of static storage). -/
def zeroSlot : Proc :=
  { pid := 0, name := "", state := PState.terminated, priority := 0
    stack_pointer := 0, stack_base := 0, heap_start := 0, heap_size := 0
    entry_point := 0, instruction_pointer := 0, parent_pid := 0
    cpu_time := 0, last_scheduled := 0, time_slice := 0
    is_demon := false, is_kernel_mode := false, is_suspended := false
    creation_time := 0 }

/-- `init_process_manager`: clears the table, attempts to create the
kernel process (note: `process_manager_initialized` is still `false` at
that point), patches it to pid 0 / RUNNING if creation succeeded, then
writes the statistics and sets the initialized flag. -/
def init_process_manager (heap : HeapState) : ProcState :=
  let st0 : ProcState :=
    { heap := heap
      procs := List.replicate MAX_PROCESSES zeroSlot
      ready_queue := []
      current_process := none
      next_pid := 1
      process_count := 0
      inited := false
      stats := ⟨0, 0, 0, 0, 0, 0, 0⟩
      sys_time := 0 }
  match create_process st0 "kernel_daemon" 0 PRIORITY_OVERLORD true with
  | (st1, k) =>
    let st2 :=
      match k with
      | some i =>
        { st1 with
          procs :=
            st1.procs.set i
              { st1.procs.getD i default with pid := 0, state := PState.running }
          current_process := some i }
      | none => st1
    { st2 with
      inited := true
      stats :=
        { total_processes := 1, active_processes := 1, demon_processes := 1
          soul_processes := 0, zombie_processes := 0
          context_switches := 0, total_cpu_time := 0 } }

/-! ## Concrete execution traces used by the theorems -/

/-- Kernel boot: `init_memory_manager()` then `init_process_manager()`. -/
def bootTrace : ProcState := init_process_manager freshHeap

/-- One user (SOUL priority) process created after boot. -/
def traceA : ProcState := (create_process bootTrace "a" 0 PRIORITY_SOUL false).1

/-- A second SOUL-priority process. -/
def traceAB : ProcState := (create_process traceA "b" 0 PRIORITY_SOUL false).1

/-- One call of the exported `schedule_next_process` entry: slot 0 becomes
the RUNNING current process, slot 1 stays queued. -/
def traceRun : ProcState := schedule_next_process traceAB

/-- One `create_process` call with fixed user-process arguments, recording
whether it succeeded. -/
def createStep (st : ProcState) : ProcState × Bool :=
  match create_process st "p" 0 PRIORITY_SOUL false with
  | (st1, r) => (st1, r.isSome)

/-- Success flags of `n` successive `create_process` calls. -/
def createResults : Nat → ProcState → List Bool
  | 0, _ => []
  | n + 1, st =>
    match createStep st with
    | (st1, ok) => ok :: createResults n st1

/-- A heap whose single allocated block has had its magic tag overwritten
with a value that is neither the allocated nor the free tag. -/
def corruptHeap : HeapState :=
  let st1 := (malloc freshHeap 100).1
  { st1 with blocks := st1.blocks.set 0 { st1.blocks.getD 0 default with magic := 0x1234 } }

/-- The payload address of the corrupted block (the first block of the
arena). -/
def corruptPtr : Nat := HEAP_START + HEADER_SIZE

/-- Fresh heap together with a byte store holding a nonzero value
everywhere, so that `calloc`'s zero-fill is observable. -/
def bootMem : HeapMem := { st := freshHeap, mem := fun _ => 7 }

/-- Allocate 100 bytes and free it again: block 0 is free (tag
`BLOCK_MAGIC_FREE`) with the allocated block `B` right after it, so a
second `free` of the same pointer exercises the double-free path. -/
def doubleFreeHeap : HeapState :=
  free (malloc (malloc freshHeap 100).1 200).1 (malloc freshHeap 100).2

/-! ## Heap invariants -/

/-- The bytes a block occupies in the arena: payload plus header. -/
def footprint (b : Block) : Nat := b.size + HEADER_SIZE

/-- Σ (payload size + header size) over the block list. -/
def sumFootprint (bs : List Block) : Nat := (bs.map footprint).sum

/-- No two address-adjacent blocks of the list are both free. -/
def NoAdjFree (bs : List Block) : Prop :=
  List.Chain' (fun a b => ¬(a.is_free = true ∧ b.is_free = true)) bs

/-- Executable check for `NoAdjFree`. -/
def noAdjFreeB : List Block → Bool
  | [] => true
  | [_] => true
  | a :: b :: rest => (!(a.is_free && b.is_free)) && noAdjFreeB (b :: rest)

theorem noAdjFreeB_iff : ∀ bs : List Block, noAdjFreeB bs = true ↔ NoAdjFree bs
  | [] => by simp [noAdjFreeB, NoAdjFree]
  | [a] => by simp [noAdjFreeB, NoAdjFree, List.chain'_singleton]
  | a :: b :: rest => by
    unfold noAdjFreeB
    unfold NoAdjFree
    rw [List.chain'_cons, Bool.and_eq_true]
    constructor
    · intro h
      refine ⟨?_, (noAdjFreeB_iff (b :: rest)).1 h.2⟩
      intro hcon
      rw [hcon.1, hcon.2] at h
      simp at h
    · intro h
      refine ⟨?_, (noAdjFreeB_iff (b :: rest)).2 h.2⟩
      cases haf : a.is_free with
      | false => simp
      | true =>
        cases hbf : b.is_free with
        | false => simp
        | true => exact absurd ⟨haf, hbf⟩ h.1

instance (bs : List Block) : Decidable (NoAdjFree bs) :=
  decidable_of_iff (noAdjFreeB bs = true) (noAdjFreeB_iff bs)

/-! ## Helper lemmas -/

theorem sumFootprint_nil : sumFootprint [] = 0 := rfl

theorem sumFootprint_cons (b : Block) (bs : List Block) :
    sumFootprint (b :: bs) = footprint b + sumFootprint bs := by
  simp [sumFootprint]

theorem sumFootprint_append (xs ys : List Block) :
    sumFootprint (xs ++ ys) = sumFootprint xs + sumFootprint ys := by
  simp [sumFootprint]

theorem sub64_exact {a b : Nat} (hb : b ≤ a) (ha : a < U64) : sub64 a b = a - b := by
  unfold sub64
  rw [Nat.mod_eq_of_lt ha, Nat.mod_eq_of_lt (lt_of_le_of_lt hb ha)]
  have h1 : a + U64 - b = (a - b) + U64 := by omega
  rw [h1, Nat.add_mod_right, Nat.mod_eq_of_lt (by omega)]

theorem find_free_block_spec :
    ∀ (bs : List Block) (sz i : Nat), find_free_block bs sz = some i →
      i < bs.length ∧ (bs.getD i default).is_free = true ∧ sz ≤ (bs.getD i default).size
  | [], sz, i => by simp [find_free_block]
  | b :: rest, sz, i => by
    unfold find_free_block
    split
    · rename_i h
      intro hi
      cases hi
      exact ⟨Nat.succ_pos _, by simpa using h.1, by simpa using h.2⟩
    · intro hi
      match hmap : find_free_block rest sz with
      | none => rw [hmap] at hi; cases hi
      | some j =>
        rw [hmap] at hi
        cases hi
        have ih := find_free_block_spec rest sz j hmap
        exact ⟨Nat.succ_lt_succ ih.1, ih.2.1, ih.2.2⟩

theorem footprint_getD_le :
    ∀ (bs : List Block) (i : Nat), i < bs.length →
      footprint (bs.getD i default) ≤ sumFootprint bs
  | [], i, h => by cases h
  | b :: rest, 0, _ => by simp [sumFootprint_cons]
  | b :: rest, i + 1, h => by
    rw [List.getD_cons_succ, sumFootprint_cons]
    exact le_add_left (footprint_getD_le rest i (Nat.lt_of_succ_lt_succ h))

theorem length_split_block :
    ∀ (bs : List Block) (i sz : Nat), bs.length ≤ (split_block bs i sz).1.length
  | [], _, _ => by simp [split_block]
  | b :: rest, 0, sz => by
    unfold split_block
    split <;> simp
  | b :: rest, i + 1, sz => by
    unfold split_block
    have ih := length_split_block rest i sz
    match h : split_block rest i sz with
    | (rest1, k) => rw [h] at ih; simpa using Nat.succ_le_succ ih

theorem sumFootprint_split :
    ∀ (bs : List Block) (i sz : Nat), i < bs.length →
      sz ≤ (bs.getD i default).size →
      sumFootprint bs ≤ HEAP_SIZE →
      sumFootprint (split_block bs i sz).1 = sumFootprint bs
  | [], i, sz, hi, _, _ => by cases hi
  | b :: rest, 0, sz, hi, hsz, hb => by
    unfold split_block
    split
    · rfl
    · rename_i hguard
      have hsize : b.size + HEADER_SIZE ≤ HEAP_SIZE := by
        have := footprint_getD_le (b :: rest) 0 hi
        simp [footprint] at this
        calc b.size + HEADER_SIZE = footprint b := rfl
          _ ≤ sumFootprint (b :: rest) := by
                rw [sumFootprint_cons]; exact Nat.le_add_right _ _
          _ ≤ HEAP_SIZE := hb
      have hszb : sz ≤ b.size := by simpa using hsz
      have hU64 : sz + HEADER_SIZE < U64 := by
        have : HEAP_SIZE < U64 := by decide
        omega
      have hmod : (sz + HEADER_SIZE) % U64 = sz + HEADER_SIZE := Nat.mod_eq_of_lt hU64
      rw [hmod] at hguard
      have hlt : sz + HEADER_SIZE < b.size := by omega
      have hsub : sub64 b.size (sz + HEADER_SIZE) = b.size - (sz + HEADER_SIZE) := by
        have : b.size < U64 := by
          have : HEAP_SIZE < U64 := by decide
          omega
        rw [sub64_exact (le_of_lt hlt) this]
      have hU32 : HEAP_SIZE < U32 := by decide
      rw [sumFootprint_cons, sumFootprint_cons, sumFootprint_cons]
      rw [hsub]
      simp only [footprint]
      rw [Nat.mod_eq_of_lt (show sz < U32 by omega),
          Nat.mod_eq_of_lt (show b.size - (sz + HEADER_SIZE) < U32 by omega)]
      omega
  | b :: rest, i + 1, sz, hi, hsz, hb => by
    unfold split_block
    have hi' : i < rest.length := Nat.lt_of_succ_lt_succ hi
    have hsz' : sz ≤ (rest.getD i default).size := by simpa using hsz
    have hb' : sumFootprint rest ≤ HEAP_SIZE := by
      rw [sumFootprint_cons] at hb; omega
    have ih := sumFootprint_split rest i sz hi' hsz' hb'
    match h : split_block rest i sz with
    | (rest1, k) =>
      rw [h] at ih
      simpa [sumFootprint_cons] using congrArg (footprint b + ·) ih

theorem sumFootprint_set :
    ∀ (bs : List Block) (i : Nat) (b : Block),
      b.size = (bs.getD i default).size →
      sumFootprint (bs.set i b) = sumFootprint bs
  | [], _, _, _ => rfl
  | x :: rest, 0, b, h => by
    simp only [List.set]
    rw [sumFootprint_cons, sumFootprint_cons]
    simp only [List.getD_cons_zero] at h
    simp [footprint, h]
  | x :: rest, i + 1, b, h => by
    simp only [List.set]
    rw [sumFootprint_cons, sumFootprint_cons,
        sumFootprint_set rest i b (by simpa using h)]

theorem set_decomp :
    ∀ (bs : List Block) (i : Nat) (b : Block), i < bs.length →
      bs.set i b = bs.take i ++ b :: bs.drop (i + 1)
  | [], i, b, h => by cases h
  | x :: rest, 0, b, _ => by simp
  | x :: rest, i + 1, b, h => by
    simp only [List.set, List.take_succ_cons, List.drop_succ_cons, List.cons_append]
    rw [set_decomp rest i b (Nat.lt_of_succ_lt_succ h)]

theorem blockIdxAt_lt_length :
    ∀ (bs : List Block) (base a i : Nat), blockIdxAt bs base a = some i → i < bs.length
  | [], base, a, i => by simp [blockIdxAt]
  | b :: rest, base, a, i => by
    unfold blockIdxAt
    split
    · intro h; cases h; exact Nat.succ_pos _
    · intro h
      match hmap : blockIdxAt rest (base + b.size + HEADER_SIZE) a with
      | none => rw [hmap] at h; cases h
      | some j =>
        rw [hmap] at h
        cases h
        exact Nat.succ_lt_succ (blockIdxAt_lt_length rest _ a j hmap)

theorem sum_decomp (bs : List Block) (i : Nat) (hi : i < bs.length) :
    sumFootprint (bs.take i) + footprint (bs.getD i default)
      + sumFootprint (bs.drop (i + 1)) = sumFootprint bs := by
  conv_rhs => rw [← List.take_append_drop i bs]
  rw [List.drop_eq_getElem_cons hi, sumFootprint_append, sumFootprint_cons,
      List.getD_eq_getElem _ _ hi]
  omega

theorem coalesce_blocks_eq (pre post : List Block) (b : Block) :
    coalesce_blocks (pre ++ b :: post) pre.length =
      if b.is_free = false then (pre ++ b :: post, 0)
      else
        let fwd : Block × List Block × Nat :=
          match post with
          | n :: rest =>
            if n.is_free then
              ({ b with size := (b.size + n.size + HEADER_SIZE) % U32 }, rest, 1)
            else (b, post, 0)
          | [] => (b, [], 0)
        match fwd with
        | (b1, post1, m1) =>
          match pre.getLast? with
          | some p =>
            if p.is_free then
              (pre.dropLast ++
                { p with size := (p.size + b1.size + HEADER_SIZE) % U32 } :: post1,
                m1 + 1)
            else (pre ++ b1 :: post1, m1)
          | none => (pre ++ b1 :: post1, m1) := by
  unfold coalesce_blocks
  rw [List.take_left, List.drop_left]

theorem sumFootprint_coalesce_decomp (pre post : List Block) (b : Block)
    (h : sumFootprint pre + footprint b + sumFootprint post = HEAP_SIZE) :
    sumFootprint (coalesce_blocks (pre ++ b :: post) pre.length).1 = HEAP_SIZE := by
  have hU32 : HEAP_SIZE < U32 := by decide
  have hback : ∀ (b1 : Block) (post1 : List Block) (m1 : Nat),
      sumFootprint pre + footprint b1 + sumFootprint post1 = HEAP_SIZE →
      sumFootprint ((match pre.getLast? with
        | some p =>
          if p.is_free then
            (pre.dropLast ++
              { p with size := (p.size + b1.size + HEADER_SIZE) % U32 } :: post1,
              m1 + 1)
          else (pre ++ b1 :: post1, m1)
        | none => (pre ++ b1 :: post1, m1) : List Block × Nat)).1 = HEAP_SIZE := by
    intro b1 post1 m1 h1
    cases hlast : pre.getLast? with
    | none =>
      rw [sumFootprint_append, sumFootprint_cons]
      omega
    | some p =>
      by_cases hp : p.is_free
      · simp only [hlast, hp, if_true]
        have hpre : pre.dropLast ++ [p] = pre :=
          List.dropLast_append_getLast? p (by rw [hlast]; rfl)
        have hsum : sumFootprint pre.dropLast + footprint p = sumFootprint pre := by
          conv_rhs => rw [← hpre]
          rw [sumFootprint_append, sumFootprint_cons, sumFootprint_nil]
          omega
        rw [sumFootprint_append, sumFootprint_cons]
        simp only [footprint] at *
        have hmod : (p.size + b1.size + HEADER_SIZE) % U32
            = p.size + b1.size + HEADER_SIZE := by
          apply Nat.mod_eq_of_lt; omega
        rw [hmod]; omega
      · simp only [hlast, hp, Bool.false_eq_true, if_false]
        rw [sumFootprint_append, sumFootprint_cons]
        omega
  rw [coalesce_blocks_eq]
  by_cases hf : b.is_free = false
  · rw [if_pos hf]
    rw [sumFootprint_append, sumFootprint_cons]
    omega
  · simp only [hf, if_false]
    cases post with
    | nil =>
      exact hback b [] 0 (by rw [sumFootprint_nil] at h ⊢; omega)
    | cons n rest =>
      by_cases hn : n.is_free
      · simp only [hn, if_true]
        apply hback
        rw [sumFootprint_cons] at h
        simp only [footprint] at *
        have hmod : (b.size + n.size + HEADER_SIZE) % U32
            = b.size + n.size + HEADER_SIZE := by
          apply Nat.mod_eq_of_lt; omega
        rw [hmod]; omega
      · simp only [hn, if_false]
        exact hback b (n :: rest) 0 h

theorem sumFootprint_malloc (st : HeapState) (n : Nat)
    (h : sumFootprint st.blocks = HEAP_SIZE) :
    sumFootprint (malloc st n).1.blocks = HEAP_SIZE := by
  unfold malloc
  split
  · exact h
  split
  · exact h
  cases hfind : find_free_block st.blocks (alignUp8 n) with
  | none => simp only [hfind]; exact h
  | some i =>
    simp only [hfind]
    obtain ⟨hi, hbfree, hsz⟩ := find_free_block_spec _ _ _ hfind
    set bs1 : List Block :=
      (if (st.blocks.getD i default).size > (alignUp8 n + HEADER_SIZE + 8) % U64 then
          split_block st.blocks i (alignUp8 n)
        else (st.blocks, 0)).1 with hbs1
    rw [sumFootprint_set bs1 i
      { size := (bs1.getD i default).size
        is_free := false
        magic := BLOCK_MAGIC_ALLOCATED } rfl]
    rw [hbs1]
    split
    · rw [sumFootprint_split st.blocks i (alignUp8 n) hi hsz (le_of_eq h)]; exact h
    · exact h

theorem sumFootprint_free (st : HeapState) (p : Nat)
    (h : sumFootprint st.blocks = HEAP_SIZE) :
    sumFootprint (free st p).blocks = HEAP_SIZE := by
  unfold free
  split
  · exact h
  cases hidx : blockIdxAt st.blocks HEAP_START (p - HEADER_SIZE) with
  | none => simp only [hidx]; exact h
  | some i =>
    simp only [hidx]
    split
    · exact h
    · have hi := blockIdxAt_lt_length _ _ _ _ hidx
      have hset := set_decomp st.blocks i
        { st.blocks.getD i default with is_free := true, magic := BLOCK_MAGIC_FREE } hi
      have hlen : (st.blocks.take i).length = i := by
        rw [List.length_take]; omega
      have hsum : sumFootprint (st.blocks.take i)
          + footprint { st.blocks.getD i default with
              is_free := true, magic := BLOCK_MAGIC_FREE }
          + sumFootprint (st.blocks.drop (i + 1)) = HEAP_SIZE := by
        have := sum_decomp st.blocks i hi
        simp only [footprint] at *
        omega
      have hco := sumFootprint_coalesce_decomp (st.blocks.take i)
        (st.blocks.drop (i + 1))
        { st.blocks.getD i default with is_free := true, magic := BLOCK_MAGIC_FREE }
        hsum
      rw [hlen, ← hset] at hco
      cases hc : coalesce_blocks
          (st.blocks.set i
            { st.blocks.getD i default with
              is_free := true, magic := BLOCK_MAGIC_FREE }) i with
      | mk bs2 merges =>
        rw [hc] at hco
        simp only [hc]
        exact hco

theorem calloc_eq_malloc (s : HeapMem) (num size : Nat) :
    (calloc s num size).1.st = (malloc s.st (num * size % U64)).1
    ∧ (calloc s num size).2 = (malloc s.st (num * size % U64)).2 := by
  unfold calloc
  by_cases hp : (malloc s.st (num * size % U64)).2 = 0 <;> simp [hp]

theorem sumFootprint_realloc (st : HeapState) (p n : Nat)
    (h : sumFootprint st.blocks = HEAP_SIZE) :
    sumFootprint (realloc st p n).1.blocks = HEAP_SIZE := by
  unfold realloc
  split
  · exact sumFootprint_malloc st n h
  split
  · exact sumFootprint_free st p h
  cases hidx : blockIdxAt st.blocks HEAP_START (p - HEADER_SIZE) with
  | none => simp only [hidx]; exact h
  | some i =>
    simp only [hidx]
    split
    · exact h
    split
    · exact h
    cases hm : malloc st n with
    | mk st1 ptr =>
      have h1 : sumFootprint st1.blocks = HEAP_SIZE := by
        have := sumFootprint_malloc st n h
        rw [hm] at this
        exact this
      match ptr with
      | 0 => exact h1
      | q + 1 => exact sumFootprint_free st1 p h1

theorem getD_append_length (xs : List Block) (b : Block) (ys : List Block) :
    (xs ++ b :: ys).getD xs.length default = b := by
  induction xs with
  | nil => rfl
  | cons x rest ih => simpa using ih

theorem set_append_length (xs : List Block) (b b2 : Block) (ys : List Block) :
    (xs ++ b :: ys).set xs.length b2 = xs ++ b2 :: ys := by
  induction xs with
  | nil => rfl
  | cons x rest ih => simp [List.set, ih]

theorem split_block_shape :
    ∀ (bs : List Block) (i sz : Nat),
      (split_block bs i sz).1 = bs ∨
      ∃ f g, (split_block bs i sz).1 = bs.take i ++ f :: g :: bs.drop (i + 1)
        ∧ g.is_free = true
  | [], _, _ => Or.inl rfl
  | b :: rest, 0, sz => by
    unfold split_block
    split
    · exact Or.inl rfl
    · right
      exact ⟨_, _, rfl, rfl⟩
  | b :: rest, i + 1, sz => by
    unfold split_block
    match h : split_block rest i sz with
    | (rest1, k) =>
      cases split_block_shape rest i sz with
      | inl heq =>
        left
        rw [h] at heq
        simp only at heq
        simp [heq]
      | inr hex =>
        obtain ⟨f, g, heq, hg⟩ := hex
        right
        rw [h] at heq
        simp only at heq
        exact ⟨f, g, by simp [heq], hg⟩

theorem noAdjFree_set_not_free :
    ∀ (bs : List Block) (i : Nat) (b2 : Block), b2.is_free = false →
      NoAdjFree bs → NoAdjFree (bs.set i b2)
  | [], _, _, _, _ => List.chain'_nil
  | b :: rest, 0, b2, h2, hA => by
    simp only [List.set]
    refine List.chain'_cons'.2 ⟨?_, hA.tail⟩
    intro y _
    simp [h2]
  | b :: rest, i + 1, b2, h2, hA => by
    simp only [List.set]
    refine List.chain'_cons'.2 ⟨?_, noAdjFree_set_not_free rest i b2 h2 hA.tail⟩
    intro y hy
    cases rest with
    | nil => simp [List.set] at hy
    | cons c cs =>
      cases i with
      | zero =>
        simp only [List.set, List.head?] at hy
        cases hy
        simp [h2]
      | succ j =>
        simp only [List.set, List.head?] at hy
        cases hy
        exact (List.chain'_cons.1 hA).1

theorem chain_extract (bs : List Block) (i : Nat) (hi : i < bs.length)
    (hA : NoAdjFree bs) :
    NoAdjFree (bs.take i) ∧ NoAdjFree (bs.drop (i + 1))
    ∧ (∀ y ∈ (bs.drop (i + 1)).head?,
        ¬((bs.getD i default).is_free = true ∧ y.is_free = true))
    ∧ (∀ x ∈ (bs.take i).getLast?,
        ¬(x.is_free = true ∧ (bs.getD i default).is_free = true)) := by
  have hdec : bs.take i ++ (bs.getD i default) :: bs.drop (i + 1) = bs := by
    rw [List.getD_eq_getElem _ _ hi, ← List.drop_eq_getElem_cons hi,
      List.take_append_drop]
  rw [← hdec] at hA
  unfold NoAdjFree at hA
  rw [List.chain'_append] at hA
  obtain ⟨h1, h2, h3⟩ := hA
  refine ⟨h1, h2.tail, (List.chain'_cons'.1 h2).1, ?_⟩
  intro x hx
  exact h3 x hx _ rfl

theorem getD_append_eq (xs : List Block) (b : Block) (ys : List Block) (i : Nat)
    (h : i = xs.length) : (xs ++ b :: ys).getD i default = b := by
  subst h; exact getD_append_length xs b ys

theorem set_append_eq (xs : List Block) (b b2 : Block) (ys : List Block) (i : Nat)
    (h : i = xs.length) : (xs ++ b :: ys).set i b2 = xs ++ b2 :: ys := by
  subst h; exact set_append_length xs b b2 ys

theorem noAdjFree_malloc (st : HeapState) (n : Nat) (hA : NoAdjFree st.blocks) :
    NoAdjFree (malloc st n).1.blocks := by
  unfold malloc
  split
  · exact hA
  split
  · exact hA
  cases hfind : find_free_block st.blocks (alignUp8 n) with
  | none => simp only [hfind]; exact hA
  | some i =>
    simp only [hfind]
    obtain ⟨hi, hbfree, hsz⟩ := find_free_block_spec _ _ _ hfind
    obtain ⟨hpre, hdrop, hhead, _⟩ := chain_extract st.blocks i hi hA
    set bs1 : List Block :=
      (if (st.blocks.getD i default).size > (alignUp8 n + HEADER_SIZE + 8) % U64 then
          split_block st.blocks i (alignUp8 n)
        else (st.blocks, 0)).1 with hbs1
    have hshape : bs1 = st.blocks ∨
        ∃ f g, bs1 = st.blocks.take i ++ f :: g :: st.blocks.drop (i + 1)
          ∧ g.is_free = true := by
      rw [hbs1]
      split
      · exact split_block_shape st.blocks i (alignUp8 n)
      · exact Or.inl rfl
    have hlen : (st.blocks.take i).length = i := by
      rw [List.length_take]; omega
    cases hshape with
    | inl heq =>
      rw [heq]
      exact noAdjFree_set_not_free st.blocks i _ rfl hA
    | inr hex =>
      obtain ⟨f, g, heq, hg⟩ := hex
      rw [heq]
      rw [getD_append_eq (st.blocks.take i) f (g :: st.blocks.drop (i + 1)) i hlen.symm]
      rw [set_append_eq (st.blocks.take i) f
        { size := f.size, is_free := false, magic := BLOCK_MAGIC_ALLOCATED }
        (g :: st.blocks.drop (i + 1)) i hlen.symm]
      refine List.Chain'.append hpre
        (List.chain'_cons'.2 ⟨?_, List.chain'_cons'.2 ⟨?_, hdrop⟩⟩) ?_
      · intro y hy hcon
        exact absurd hcon.1 (by simp)
      · intro y hy hcon
        exact hhead y hy ⟨hbfree, hcon.2⟩
      · intro x _ y hy
        simp only [List.head?] at hy
        cases hy
        intro hcon
        exact absurd hcon.2 (by simp)

theorem noAdjFree_coalesce_decomp (pre post : List Block) (b0 bf : Block)
    (hA : NoAdjFree (pre ++ b0 :: post)) :
    NoAdjFree (coalesce_blocks (pre ++ bf :: post) pre.length).1 := by
  have hpre : NoAdjFree pre := hA.left_of_append
  have hcons : NoAdjFree (b0 :: post) := hA.right_of_append
  have hpost : NoAdjFree post := hcons.tail
  have hplast : ∀ p, pre.getLast? = some p →
      NoAdjFree pre.dropLast
      ∧ (p.is_free = true →
          ∀ x ∈ pre.dropLast.getLast?, x.is_free = false) := by
    intro p hp
    have hd : pre.dropLast ++ [p] = pre :=
      List.dropLast_append_getLast? p (by rw [hp]; rfl)
    have hpre2 := hpre
    rw [← hd] at hpre2
    unfold NoAdjFree at hpre2
    rw [List.chain'_append] at hpre2
    refine ⟨hpre2.1, ?_⟩
    intro hpf x hx
    have := hpre2.2.2 x hx p rfl
    cases hxf : x.is_free with
    | false => rfl
    | true => exact absurd ⟨hxf, hpf⟩ this
  have build1 : ∀ (b1 : Block) (post1 : List Block),
      (∀ x ∈ pre.getLast?, ¬(x.is_free = true ∧ b1.is_free = true)) →
      (∀ y ∈ post1.head?, ¬(b1.is_free = true ∧ y.is_free = true)) →
      NoAdjFree post1 →
      NoAdjFree (pre ++ b1 :: post1) := by
    intro b1 post1 hj hh hc
    refine List.Chain'.append hpre (List.chain'_cons'.2 ⟨hh, hc⟩) ?_
    intro x hx y hy
    simp only [List.head?] at hy
    cases hy
    exact hj x hx
  have build2 : ∀ (p : Block) (b1 : Block) (post1 : List Block),
      pre.getLast? = some p → p.is_free = true →
      (∀ y ∈ post1.head?, y.is_free = false) →
      NoAdjFree post1 →
      NoAdjFree (pre.dropLast ++
        { size := (p.size + b1.size + HEADER_SIZE) % U32, is_free := true,
          magic := p.magic } :: post1) := by
    intro p b1 post1 hp hpf hh hc
    obtain ⟨hdc, hdl⟩ := hplast p hp
    refine List.Chain'.append hdc (List.chain'_cons'.2 ⟨?_, hc⟩) ?_
    · intro y hy hcon
      have := hh y hy
      rw [this] at hcon
      exact absurd hcon.2 (by simp)
    · intro x hx y hy
      simp only [List.head?] at hy
      cases hy
      intro hcon
      have := hdl hpf x hx
      rw [this] at hcon
      exact absurd hcon.1 (by simp)
  have hjb0 : ∀ x ∈ pre.getLast?, ¬(x.is_free = true ∧ b0.is_free = true) := by
    unfold NoAdjFree at hA
    rw [List.chain'_append] at hA
    intro x hx
    exact hA.2.2 x hx b0 rfl
  have hb0head : ∀ y ∈ post.head?, ¬(b0.is_free = true ∧ y.is_free = true) :=
    (List.chain'_cons'.1 hcons).1
  rw [coalesce_blocks_eq]
  cases hbf : bf.is_free with
  | false =>
    simp only [hbf, if_pos rfl]
    refine build1 bf post ?_ ?_ hpost
    · intro x hx hcon
      rw [hbf] at hcon
      exact absurd hcon.2 (by simp)
    · intro y hy hcon
      rw [hbf] at hcon
      exact absurd hcon.1 (by simp)
  | true =>
    simp only [Bool.true_eq_false, if_false]
    cases post with
    | nil =>
      simp only
      cases hlast : pre.getLast? with
      | none =>
        simp only
        refine build1 bf [] ?_ ?_ List.chain'_nil
        · intro x hx; rw [hlast] at hx; cases hx
        · intro y hy; cases hy
      | some p =>
        cases hpf : p.is_free with
        | true =>
          simp only [hpf, if_true]
          refine build2 p bf [] hlast hpf ?_ List.chain'_nil
          intro y hy; cases hy
        | false =>
          simp only [hpf, Bool.false_eq_true, if_false]
          refine build1 bf [] ?_ ?_ List.chain'_nil
          · intro x hx hcon
            rw [hlast] at hx
            cases hx
            rw [hpf] at hcon
            exact absurd hcon.1 (by simp)
          · intro y hy; cases hy
    | cons nn rest =>
      have hresthead : nn.is_free = true → ∀ y ∈ rest.head?, y.is_free = false := by
        intro hnf y hy
        have := (List.chain'_cons'.1 hpost).1 y hy
        cases hyf : y.is_free with
        | false => rfl
        | true => exact absurd ⟨hnf, hyf⟩ this
      cases hnn : nn.is_free with
      | true =>
        simp only [hnn, if_true]
        cases hlast : pre.getLast? with
        | none =>
          simp only
          refine build1
            { size := (bf.size + nn.size + HEADER_SIZE) % U32, is_free := true,
              magic := bf.magic } rest ?_ ?_ hpost.tail
          · intro x hx; rw [hlast] at hx; cases hx
          · intro y hy hcon
            have := hresthead hnn y hy
            rw [this] at hcon
            exact absurd hcon.2 (by simp)
        | some p =>
          cases hpf : p.is_free with
          | true =>
            simp only [hpf, if_true]
            exact build2 p
              { size := (bf.size + nn.size + HEADER_SIZE) % U32, is_free := true,
                magic := bf.magic } rest hlast hpf (hresthead hnn) hpost.tail
          | false =>
            simp only [hpf, Bool.false_eq_true, if_false]
            refine build1
              { size := (bf.size + nn.size + HEADER_SIZE) % U32, is_free := true,
                magic := bf.magic } rest ?_ ?_ hpost.tail
            · intro x hx hcon
              rw [hlast] at hx
              cases hx
              rw [hpf] at hcon
              exact absurd hcon.1 (by simp)
            · intro y hy hcon
              have := hresthead hnn y hy
              rw [this] at hcon
              exact absurd hcon.2 (by simp)
      | false =>
        simp only [hnn, Bool.false_eq_true, if_false]
        have hbfhead : ∀ y ∈ (nn :: rest).head?, ¬(bf.is_free = true ∧ y.is_free = true) := by
          intro y hy
          simp only [List.head?] at hy
          cases hy
          intro hcon
          rw [hnn] at hcon
          exact absurd hcon.2 (by simp)
        cases hlast : pre.getLast? with
        | none =>
          simp only
          refine build1 bf (nn :: rest) ?_ hbfhead hpost
          intro x hx; rw [hlast] at hx; cases hx
        | some p =>
          cases hpf : p.is_free with
          | true =>
            simp only [hpf, if_true]
            refine build2 p bf (nn :: rest) hlast hpf ?_ hpost
            intro y hy
            simp only [List.head?] at hy
            cases hy
            exact hnn
          | false =>
            simp only [hpf, Bool.false_eq_true, if_false]
            refine build1 bf (nn :: rest) ?_ hbfhead hpost
            intro x hx hcon
            rw [hlast] at hx
            cases hx
            rw [hpf] at hcon
            exact absurd hcon.1 (by simp)
theorem noAdjFree_free (st : HeapState) (p : Nat) (hA : NoAdjFree st.blocks) :
    NoAdjFree (free st p).blocks := by
  unfold free
  split
  · exact hA
  cases hidx : blockIdxAt st.blocks HEAP_START (p - HEADER_SIZE) with
  | none => simp only [hidx]; exact hA
  | some i =>
    simp only [hidx]
    split
    · exact hA
    · have hi := blockIdxAt_lt_length _ _ _ _ hidx
      have hdec : st.blocks.take i ++ (st.blocks.getD i default)
            :: st.blocks.drop (i + 1) = st.blocks := by
        rw [List.getD_eq_getElem _ _ hi, ← List.drop_eq_getElem_cons hi,
          List.take_append_drop]
      have hlen : (st.blocks.take i).length = i := by
        rw [List.length_take]; omega
      have hA2 : NoAdjFree (st.blocks.take i ++ (st.blocks.getD i default)
          :: st.blocks.drop (i + 1)) := by
        rw [hdec]; exact hA
      have hco := noAdjFree_coalesce_decomp (st.blocks.take i)
        (st.blocks.drop (i + 1)) (st.blocks.getD i default)
        { st.blocks.getD i default with is_free := true, magic := BLOCK_MAGIC_FREE }
        hA2
      rw [hlen] at hco
      rw [← set_decomp st.blocks i _ hi] at hco
      cases hc : coalesce_blocks
          (st.blocks.set i
            { st.blocks.getD i default with
              is_free := true, magic := BLOCK_MAGIC_FREE }) i with
      | mk bs2 merges =>
        rw [hc] at hco
        simp only [hc]
        exact hco

theorem noAdjFree_realloc (st : HeapState) (p n : Nat) (hA : NoAdjFree st.blocks) :
    NoAdjFree (realloc st p n).1.blocks := by
  unfold realloc
  split
  · exact noAdjFree_malloc st n hA
  split
  · exact noAdjFree_free st p hA
  cases hidx : blockIdxAt st.blocks HEAP_START (p - HEADER_SIZE) with
  | none => simp only [hidx]; exact hA
  | some i =>
    simp only [hidx]
    split
    · exact hA
    split
    · exact hA
    cases hm : malloc st n with
    | mk st1 ptr =>
      have h1 : NoAdjFree st1.blocks := by
        have := noAdjFree_malloc st n hA
        rw [hm] at this
        exact this
      match ptr with
      | 0 => exact h1
      | q + 1 => exact noAdjFree_free st1 p h1

theorem reachable_noAdjFree (st : HeapState) (h : ReachableHeap st) :
    NoAdjFree st.blocks := by
  induction h with
  | init => decide
  | step hst op ih =>
    cases op with
    | mallocOp n => exact noAdjFree_malloc _ n ih
    | freeOp ptr => exact noAdjFree_free _ ptr ih
    | callocOp num sz =>
      simp only [applyOp]
      rw [(calloc_eq_malloc _ num sz).1]
      exact noAdjFree_malloc _ _ ih
    | reallocOp ptr n => exact noAdjFree_realloc _ ptr n ih

/-- Claim C2 (confirmed).  For every heap state reachable from
`init_memory_manager` by any sequence of `malloc` / `free` / `calloc` /
`realloc` calls, the sum over the block list of each block's payload
size plus the header size equals the arena's total size `HEAP_SIZE`.
The inductive step tracks the sum through `split_block`
(`sumFootprint_split`) and `coalesce_blocks`
(`sumFootprint_coalesce_decomp`), each of which preserves it. -/
theorem c2_sum_of_footprints_equals_arena_size (st : HeapState)
    (h : ReachableHeap st) : sumFootprint st.blocks = HEAP_SIZE := by
  induction h with
  | init => decide
  | step hst op ih =>
    cases op with
    | mallocOp n => exact sumFootprint_malloc _ n ih
    | freeOp ptr => exact sumFootprint_free _ ptr ih
    | callocOp num sz =>
      simp only [applyOp]
      rw [(calloc_eq_malloc _ num sz).1]
      exact sumFootprint_malloc _ _ ih
    | reallocOp ptr n => exact sumFootprint_realloc _ ptr n ih

/-- Witness for C2: the invariant evaluated at the concrete reachable
state reached by `init` followed by `malloc(100)`. -/
theorem c2_sum_of_footprints_equals_arena_size_witness :
    sumFootprint (applyOp freshHeap (HeapOp.mallocOp 100)).blocks = HEAP_SIZE :=
  c2_sum_of_footprints_equals_arena_size _
    (ReachableHeap.step ReachableHeap.init (HeapOp.mallocOp 100))

/-- Claim C3 (confirmed).  After any `free` call on any heap state
reachable through the public allocator operations, no two
address-adjacent blocks of the block list are both free:
`coalesce_blocks` merges the freed block with the following block first
and then, using the updated block, with the preceding one
(`coalesce_blocks_eq` exhibits exactly this order), restoring the
no-adjacent-free invariant. -/
theorem c3_no_adjacent_free_blocks_after_free (st : HeapState)
    (h : ReachableHeap st) (ptr : Nat) :
    NoAdjFree (free st ptr).blocks :=
  noAdjFree_free st ptr (reachable_noAdjFree st h)

/-- Witness for C3: freeing the block granted by `malloc(100)` on the
fresh heap (its payload sits at `HEAP_START + HEADER_SIZE`) leaves no
two adjacent free blocks. -/
theorem c3_no_adjacent_free_blocks_after_free_witness :
    NoAdjFree (free (applyOp freshHeap (HeapOp.mallocOp 100))
      (HEAP_START + HEADER_SIZE)).blocks :=
  c3_no_adjacent_free_blocks_after_free _
    (ReachableHeap.step ReachableHeap.init (HeapOp.mallocOp 100))
    (HEAP_START + HEADER_SIZE)

/-- Claim C1 (code bug).  The claim asserts the READY ⟺ in-Ready-Queue
invariant, and in particular that after `yield_()` returns with a
non-empty Ready Queue the formerly RUNNING process is READY *and
reinserted into the Ready Queue*.  The code violates this: `yield_process`
sets the current process's state to READY *before* calling
`schedule_next_process`, whose re-enqueue guard tests
`state == PROCESS_STATE_RUNNING` (its own comment says "If current
process is still ready, add back to queue").  In the concrete trace
below, slot 0 is RUNNING with a non-empty queue; after `yield_process`
slot 0 has state READY but the Ready Queue is empty — the process has
been dropped from scheduling, and the iff invariant is broken.  The same
happens when `process_scheduler` (tick) detects an expired slice. -/
theorem c1_yield_drops_ready_process_from_queue :
    (traceRun.procs.getD 0 default).state = PState.running
    ∧ traceRun.ready_queue = [1]
    ∧ ((yield_process traceRun).procs.getD 0 default).state = PState.ready
    ∧ (yield_process traceRun).ready_queue = []
    ∧ (yield_process traceRun).current_process = some 1
    ∧ ((Nat.iterate process_scheduler 30 traceRun).procs.getD 0 default).state = PState.ready
    ∧ (Nat.iterate process_scheduler 30 traceRun).ready_queue = [] := by
  decide

/-- Claim C4, counterexample.  `init_memory_manager` has no
already-initialized check: invoked again on a heap holding a live
allocation it silently resets the arena to the fresh single-free-block
state instead of rejecting the call and leaving the heap unmodified. -/
theorem c4_second_init_resets_live_heap :
    init_memory_manager (malloc freshHeap 32).1 ≠ (malloc freshHeap 32).1
    ∧ init_memory_manager (malloc freshHeap 32).1 = freshHeap := by
  decide

/-- Claim C4, amended: a second (indeed, any) invocation of
`init_memory_manager` is not rejected; whatever the previous state, it
unconditionally re-establishes the arena as a single free block covering
the arena minus one header and resets every statistic, discarding all
live allocations. -/
theorem c4_init_unconditionally_resets (st : HeapState) :
    (init_memory_manager st).blocks
        = [⟨HEAP_SIZE - HEADER_SIZE, true, BLOCK_MAGIC_FREE⟩]
    ∧ (init_memory_manager st).stats.allocated_blocks = 0
    ∧ (init_memory_manager st).stats.used_memory = HEADER_SIZE
    ∧ (init_memory_manager st).inited = true := by
  exact ⟨rfl, rfl, rfl, rfl⟩

/-- Claim C6 (code bug).  `init_process_manager` calls `create_process`
for the kernel process *before* setting `process_manager_initialized`,
and `create_process` returns NULL while that flag is false.  So after
initialization no process exists at all: no slot holds a live process,
pid 0 is never assigned to a kernel process, and `current_process` is
NULL.  (Had the kernel process been created, its slot would also be
reclaimable: the free-slot scan `processes[i].pid == 0` does not exempt
slot 0.) -/
theorem c6_init_never_creates_kernel_process :
    bootTrace.current_process = none
    ∧ bootTrace.process_count = 0
    ∧ bootTrace.procs.all
        (fun p => p.pid == 0 && p.state == PState.terminated) = true
    ∧ bootTrace.next_pid = 1 := by
  decide

/-- Claim C7, counterexample.  The claim presumes the freshly initialized
table "already contains the kernel process": it does not — every slot is
free (pid 0, TERMINATED) and no process is current, because the kernel
process creation inside `init_process_manager` fails (see C6). -/
theorem c7_fresh_table_contains_no_process :
    bootTrace.procs.all (fun p => p.state == PState.terminated) = true
    ∧ bootTrace.current_process = none := by
  decide

/-- Claim C7, amended: from a freshly initialized table — which contains
no live process, one slot is *not* pre-consumed by a kernel process —
`create_process` with sufficient heap memory succeeds exactly 64 times
and the 65th call fails (NULL, the TableFull guard
`process_count >= MAX_PROCESSES`). -/
theorem c7_create_succeeds_64_times_then_fails :
    createResults 65 bootTrace = List.replicate 64 true ++ [false] := by
  decide

/-- Claim C8, counterexample.  `suspend_process` only acts on a process
whose state is RUNNING; suspending a READY process (slot 1, pid 2, READY
and queued in `traceRun`) is a no-op, not a transition to WAITING as the
claim states. -/
theorem c8_suspend_ready_process_is_noop :
    (traceRun.procs.getD 1 default).state = PState.ready
    ∧ suspend_process traceRun 2 = traceRun := by
  decide

/-- Claim C9, counterexample.  `calloc` computes `num * size` in wrapping
`size_t` arithmetic with no overflow check: for `num = 2^63 + 8`,
`size = 2` the product overflows (mathematically `2^64 + 16`) and wraps
to 16, and the call *succeeds*, returning a 16-byte allocation instead
of propagating an allocation failure as the claim requires. -/
theorem c9_calloc_overflow_succeeds :
    U64 ≤ (2 ^ 63 + 8) * 2
    ∧ (calloc bootMem (2 ^ 63 + 8) 2).2 ≠ 0 := by
  decide

/-- Claim C5, counterexample.  On a handle whose block tag is corrupted
(`corruptHeap`, tag `0x1234`), `realloc` with a nonzero size returns
NULL and leaves the heap — *including the corruption counter* —
entirely unchanged; it does not increment the counter by one as the
claim states (only `free` counts corrupted blocks). -/
theorem c5_realloc_corrupted_handle_not_counted :
    corruptHeap.stats.corrupted_blocks = 0
    ∧ (realloc corruptHeap corruptPtr 8).1 = corruptHeap
    ∧ (realloc corruptHeap corruptPtr 8).2 = 0
    ∧ ¬((realloc corruptHeap corruptPtr 8).1.stats.corrupted_blocks
        = corruptHeap.stats.corrupted_blocks + 1) := by
  decide

/-- Claim C5, amended: on a handle failing `validate_block` (out of
bounds, not a block boundary, or an invalid tag), `free` increments the
corruption counter by exactly one and leaves the block list and every
other statistic unchanged (no fatal error path exists in the source);
`realloc` with a nonzero size returns NULL and leaves the heap — the
corruption counter included — unchanged. -/
theorem c5_corrupted_handle_policy (st : HeapState) (ptr n : Nat)
    (hp : ptr ≠ 0) (hinit : st.inited = true) (hn : n ≠ 0)
    (hv : validate_block st.blocks (ptr - HEADER_SIZE) = false) :
    free st ptr =
      { st with stats :=
          { st.stats with
            corrupted_blocks := (st.stats.corrupted_blocks + 1) % U32 } }
    ∧ realloc st ptr n = (st, 0) := by
  unfold validate_block at hv
  have hguard : ¬(ptr = 0 ∨ st.inited = false) := by
    intro hc
    cases hc with
    | inl h => exact hp h
    | inr h => rw [hinit] at h; cases h
  cases hidx : blockIdxAt st.blocks HEAP_START (ptr - HEADER_SIZE) with
  | none =>
    constructor
    · unfold free
      rw [if_neg hguard]
      simp only [hidx]
    · unfold realloc
      rw [if_neg hp, if_neg hn]
      simp only [hidx]
  | some i =>
    rw [hidx] at hv
    simp only [decide_eq_false_iff_not] at hv
    constructor
    · unfold free
      rw [if_neg hguard]
      simp only [hidx]
      rw [if_pos hv]
    · unfold realloc
      rw [if_neg hp, if_neg hn]
      simp only [hidx]
      rw [if_pos hv]

/-- Witness for C5 at the concrete corrupted heap. -/
theorem c5_corrupted_handle_policy_witness :
    free corruptHeap corruptPtr =
      { corruptHeap with stats :=
          { corruptHeap.stats with
            corrupted_blocks := (corruptHeap.stats.corrupted_blocks + 1) % U32 } }
    ∧ realloc corruptHeap corruptPtr 8 = (corruptHeap, 0) :=
  c5_corrupted_handle_policy corruptHeap corruptPtr 8
    (by decide) (by decide) (by decide) (by decide)

theorem memset_zero :
    ∀ (n : Nat) (m : Nat → Nat) (dst k : Nat), k < n →
      memset m dst 0 n (dst + k) = 0
  | 0, _, _, k, h => by cases h
  | n + 1, m, dst, k, h => by
    unfold memset
    by_cases hk : k = n
    · subst hk
      rw [if_pos rfl]
    · rw [if_neg (by omega)]
      exact memset_zero n m dst k (by omega)

/-- Claim C9, amended: `zeroAllocate(count, elementSize)` computes the
product in wrapping `size_t` arithmetic — there is no overflow check —
and behaves exactly as `allocate((count * elementSize) mod 2^64)`
followed by zero-filling that many bytes of the granted range; on
overflow the wrapped product is used, so the call can succeed with a
smaller-than-requested region instead of failing. -/
theorem c9_calloc_is_wrapped_malloc_plus_zero_fill (s : HeapMem) (num size : Nat) :
    (calloc s num size).1.st = (malloc s.st (num * size % U64)).1
    ∧ (calloc s num size).2 = (malloc s.st (num * size % U64)).2
    ∧ ((calloc s num size).2 ≠ 0 →
        ∀ k, k < num * size % U64 →
          (calloc s num size).1.mem ((calloc s num size).2 + k) = 0) := by
  refine ⟨(calloc_eq_malloc s num size).1, (calloc_eq_malloc s num size).2, ?_⟩
  intro hnz k hk
  have h2 := (calloc_eq_malloc s num size).2
  by_cases hp : (malloc s.st (num * size % U64)).2 = 0
  · rw [h2, hp] at hnz
    exact absurd rfl hnz
  · have hcalloc : calloc s num size
        = ({ st := (malloc s.st (num * size % U64)).1
             mem := memset s.mem (malloc s.st (num * size % U64)).2 0
               (num * size % U64) },
           (malloc s.st (num * size % U64)).2) := by
      unfold calloc
      simp [hp]
    rw [hcalloc]
    exact memset_zero _ s.mem _ k hk

/-- Witness for C9: `calloc(2, 3)` on the fresh heap zero-fills the
first granted byte (the byte store held 7 everywhere before). -/
theorem c9_calloc_is_wrapped_malloc_plus_zero_fill_witness :
    (calloc bootMem 2 3).1.mem ((calloc bootMem 2 3).2 + 0) = 0 :=
  (c9_calloc_is_wrapped_malloc_plus_zero_fill bootMem 2 3).2.2
    (by decide) 0 (by decide)

theorem coalesce_blocks_noop (pre post : List Block) (b : Block)
    (hfree : b.is_free = true)
    (hpre : ∀ x ∈ pre.getLast?, x.is_free = false)
    (hpost : ∀ y ∈ post.head?, y.is_free = false) :
    coalesce_blocks (pre ++ b :: post) pre.length = (pre ++ b :: post, 0) := by
  have hnb : ¬(b.is_free = false) := by rw [hfree]; simp
  rw [coalesce_blocks_eq, if_neg hnb]
  cases post with
  | nil =>
    cases hlast : pre.getLast? with
    | none => rfl
    | some p =>
      have hp2 : ¬(p.is_free = true) := by
        rw [hpre p (by rw [hlast]; rfl)]
        simp
      dsimp only
      rw [if_neg hp2]
  | cons n rest =>
    have hn2 : ¬(n.is_free = true) := by
      rw [hpost n rfl]
      simp
    cases hlast : pre.getLast? with
    | none =>
      dsimp only
      rw [if_neg hn2]
    | some p =>
      have hp2 : ¬(p.is_free = true) := by
        rw [hpre p (by rw [hlast]; rfl)]
        simp
      dsimp only
      rw [if_neg hn2]
      dsimp only
      rw [if_neg hp2]

/-- Claim C10 (confirmed).  A `free` on a handle whose block already
carries the free tag (a double free) passes validation: the corruption
counter is untouched, the block list is unchanged (the block is marked
free again with the same tag, and — its neighbours not being free — no
merge occurs), and the used/free byte totals and allocated/free block
counts are all updated a second time. -/
theorem c10_double_free_accepted_and_recounted (st : HeapState)
    (pre post : List Block) (b : Block)
    (hbs : st.blocks = pre ++ b :: post)
    (hinit : st.inited = true)
    (hfree : b.is_free = true)
    (hmagic : b.magic = BLOCK_MAGIC_FREE)
    (hpre : ∀ x ∈ pre.getLast?, x.is_free = false)
    (hpost : ∀ y ∈ post.head?, y.is_free = false)
    (hidx : blockIdxAt st.blocks HEAP_START
        (HEAP_START + sumFootprint pre) = some pre.length) :
    free st (HEAP_START + sumFootprint pre + HEADER_SIZE) =
      { st with stats :=
          { st.stats with
            used_memory := sub64 st.stats.used_memory b.size
            free_memory := (st.stats.free_memory + b.size) % U64
            allocated_blocks := sub32 st.stats.allocated_blocks 1
            free_blocks := (st.stats.free_blocks + 1) % U32 } } := by
  have hgd : st.blocks.getD pre.length default = b := by
    rw [hbs]
    exact getD_append_length pre b post
  have hbeq : { st.blocks.getD pre.length default with
      is_free := true, magic := BLOCK_MAGIC_FREE } = b := by
    rw [hgd]
    cases b
    simp_all
  have hsetid : st.blocks.set pre.length
      { st.blocks.getD pre.length default with
        is_free := true, magic := BLOCK_MAGIC_FREE } = st.blocks := by
    rw [hbeq, hbs]
    exact set_append_eq pre b b post pre.length rfl
  have hptr : HEAP_START + sumFootprint pre + HEADER_SIZE - HEADER_SIZE
      = HEAP_START + sumFootprint pre := by omega
  have hguard : ¬(HEAP_START + sumFootprint pre + HEADER_SIZE = 0
      ∨ st.inited = false) := by
    intro hc
    cases hc with
    | inl h => simp [HEAP_START, HEADER_SIZE] at h
    | inr h => rw [hinit] at h; cases h
  unfold free
  rw [if_neg hguard, hptr]
  simp only [hidx]
  rw [if_neg (by rw [hgd, hmagic]; simp [BLOCK_MAGIC_FREE, BLOCK_MAGIC_ALLOCATED])]
  rw [hsetid]
  have hco : coalesce_blocks st.blocks pre.length = (st.blocks, 0) := by
    rw [hbs]
    exact coalesce_blocks_noop pre post b hfree hpre hpost
  rw [hco]
  have hfb : sub32 ((st.stats.free_blocks + 1) % U32) 0
      = (st.stats.free_blocks + 1) % U32 := by
    unfold sub32 U32
    omega
  rw [hgd, hfb]

theorem getD_set_self {α : Type} [Inhabited α] :
    ∀ (l : List α) (i : Nat) (b : α), i < l.length →
      (l.set i b).getD i default = b
  | [], i, b, h => by cases h
  | x :: rest, 0, b, _ => rfl
  | x :: rest, i + 1, b, h => by
    simp only [List.set, List.getD_cons_succ]
    exact getD_set_self rest i b (Nat.lt_of_succ_lt_succ h)

theorem getD_set_ne {α : Type} [Inhabited α] :
    ∀ (l : List α) (j i : Nat) (b : α), i ≠ j →
      (l.set j b).getD i default = l.getD i default
  | [], _, _, _, _ => rfl
  | x :: rest, 0, 0, b, h => absurd rfl h
  | x :: rest, 0, i + 1, b, _ => by simp [List.set]
  | x :: rest, j + 1, 0, b, _ => rfl
  | x :: rest, j + 1, i + 1, b, h => by
    simp only [List.set, List.getD_cons_succ]
    exact getD_set_ne rest j i b (fun hc => h (by rw [hc]))

theorem set_oob {α : Type} :
    ∀ (l : List α) (i : Nat) (b : α), l.length ≤ i → l.set i b = l
  | [], _, _, _ => rfl
  | x :: rest, 0, b, h => by simp at h
  | x :: rest, i + 1, b, h => by
    simp only [List.set]
    rw [set_oob rest i b (by simp only [List.length_cons] at h; omega)]

theorem find_process_by_pid_spec :
    ∀ (ps : List Proc) (pid i : Nat),
      find_process_by_pid ps pid = some i →
      i < ps.length ∧ (ps.getD i default).pid = pid
  | [], pid, i => by simp [find_process_by_pid]
  | p :: rest, pid, i => by
    unfold find_process_by_pid
    split
    · rename_i h
      intro hi
      cases hi
      exact ⟨Nat.succ_pos _, h⟩
    · intro hi
      match hmap : find_process_by_pid rest pid with
      | none => rw [hmap] at hi; cases hi
      | some jj =>
        rw [hmap] at hi
        cases hi
        have ih := find_process_by_pid_spec rest pid jj hmap
        exact ⟨Nat.succ_lt_succ ih.1, ih.2⟩

theorem remove_from_ready_queue_not_mem (st : ProcState) (i : Nat)
    (h : i ∉ st.ready_queue) :
    remove_from_ready_queue st i = st := by
  unfold remove_from_ready_queue
  cases hq : st.ready_queue with
  | nil => rfl
  | cons j rest =>
    have hj : ¬(j = i) := fun hc => h (by rw [hq, hc]; exact List.mem_cons_self _ _)
    dsimp only
    rw [if_neg hj]
    rw [List.erase_of_not_mem
      (fun hc => h (by rw [hq]; exact List.mem_cons_of_mem _ hc))]
    rw [← hq]

theorem save_process_context_spec (st : ProcState) (i : Nat) :
    (save_process_context st i).ready_queue = st.ready_queue
    ∧ (save_process_context st i).current_process = st.current_process
    ∧ (save_process_context st i).stats.context_switches
        = st.stats.context_switches
    ∧ ((save_process_context st i).procs.getD i default).state
        = (st.procs.getD i default).state
    ∧ ((save_process_context st i).procs.getD i default).is_suspended
        = (st.procs.getD i default).is_suspended := by
  unfold save_process_context get_system_time
  dsimp only
  refine ⟨rfl, rfl, rfl, ?_, ?_⟩ <;>
  · by_cases h : i < st.procs.length
    · rw [getD_set_self _ _ _ h]
    · rw [set_oob _ _ _ (le_of_not_lt h)]

theorem schedule_next_process_spec (st : ProcState) (i j : Nat) (rest : List Nat)
    (hq : st.ready_queue = j :: rest)
    (hc : st.current_process = some i)
    (hij : i ≠ j)
    (hns : (st.procs.getD i default).state ≠ PState.running) :
    ((schedule_next_process st).procs.getD i default).state
        = (st.procs.getD i default).state
    ∧ ((schedule_next_process st).procs.getD i default).is_suspended
        = (st.procs.getD i default).is_suspended
    ∧ (schedule_next_process st).ready_queue = rest
    ∧ (schedule_next_process st).current_process = some j
    ∧ (schedule_next_process st).stats.context_switches
        = (st.stats.context_switches + 1) % U64 := by
  unfold schedule_next_process get_system_time
  rw [hq]
  dsimp only
  rw [hc]
  dsimp only
  rw [if_pos hij]
  have hs := save_process_context_spec
    { st with ready_queue := rest, current_process := some i } i
  have hnr : ¬((save_process_context
      { st with ready_queue := rest, current_process := some i } i).procs.getD
      i default).state = PState.running := by
    rw [hs.2.2.2.1]
    exact hns
  rw [if_neg hnr]
  refine ⟨?_, ?_, ?_, rfl, ?_⟩
  · rw [getD_set_ne _ _ _ _ hij]
    exact hs.2.2.2.1
  · rw [getD_set_ne _ _ _ _ hij]
    exact hs.2.2.2.2
  · exact hs.1
  · rw [hs.2.2.1]

theorem rq_insert_walk_mem (procs : List Proc) (prio i : Nat) :
    ∀ q : List Nat, i ∈ rq_insert_walk procs prio i q
  | [] => by simp [rq_insert_walk]
  | [j] => by simp [rq_insert_walk]
  | j :: k :: rest => by
    unfold rq_insert_walk
    split
    · exact List.mem_cons_of_mem _ (rq_insert_walk_mem procs prio i (k :: rest))
    · simp

theorem add_to_ready_queue_spec (st : ProcState) (i : Nat)
    (h : (st.procs.getD i default).state = PState.ready) :
    i ∈ (add_to_ready_queue st i).ready_queue
    ∧ (add_to_ready_queue st i).procs = st.procs := by
  unfold add_to_ready_queue
  rw [if_neg (by rw [h]; simp)]
  cases hq : st.ready_queue with
  | nil => exact ⟨by simp, rfl⟩
  | cons j rest =>
    dsimp only
    by_cases hpr : (st.procs.getD i default).priority
        < (st.procs.getD j default).priority
    · rw [if_pos hpr]
      exact ⟨by simp, rfl⟩
    · rw [if_neg hpr]
      exact ⟨rq_insert_walk_mem st.procs _ i (j :: rest), rfl⟩

/-- Claim C8, amended.  `suspend(pid)` acts only on a process whose state
is RUNNING (suspending a READY process is a no-op, not a transition to
WAITING as claimed); suspending the RUNNING current process marks it
WAITING and suspended, removes it from scheduling, and triggers a
reschedule (the queue head becomes current and the context-switch
counter increments).  `resume(pid)` moves a suspended process back to
READY and reinserts it into the Ready Queue. -/
theorem c8_suspend_running_only_resume_reinserts (st : ProcState) (pid i : Nat)
    (hfind : find_process_by_pid st.procs pid = some i) :
    ((st.procs.getD i default).state = PState.ready →
        suspend_process st pid = st)
    ∧ (∀ j rest, (st.procs.getD i default).state = PState.running →
        st.current_process = some i →
        st.ready_queue = j :: rest →
        i ∉ st.ready_queue →
        ((suspend_process st pid).procs.getD i default).state = PState.waiting
        ∧ ((suspend_process st pid).procs.getD i default).is_suspended = true
        ∧ (suspend_process st pid).ready_queue = rest
        ∧ (suspend_process st pid).current_process = some j
        ∧ (suspend_process st pid).stats.context_switches
            = (st.stats.context_switches + 1) % U64)
    ∧ ((st.procs.getD i default).is_suspended = true →
        ((resume_process st pid).procs.getD i default).state = PState.ready
        ∧ i ∈ (resume_process st pid).ready_queue) := by
  obtain ⟨hlen, hpid⟩ := find_process_by_pid_spec st.procs pid i hfind
  refine ⟨?_, ?_, ?_⟩
  · intro hr
    unfold suspend_process
    rw [hfind]
    dsimp only
    rw [if_neg (by rw [hr]; simp)]
  · intro j rest hr hc hq hnm
    unfold suspend_process
    rw [hfind]
    dsimp only
    rw [if_pos hr]
    set st1 : ProcState :=
      { st with procs :=
          (st.procs.set i
            { st.procs.getD i default with
              is_suspended := true, state := PState.waiting }) } with hst1
    have hrq1 : st1.ready_queue = st.ready_queue := rfl
    have hrqeq : remove_from_ready_queue st1 i = st1 :=
      remove_from_ready_queue_not_mem st1 i (by rw [hrq1]; exact hnm)
    rw [hrqeq]
    rw [if_pos (show st1.current_process = some i from hc)]
    have hij : i ≠ j := fun he => hnm (by rw [hq, he]; exact List.mem_cons_self _ _)
    have hgd : st1.procs.getD i default
        = { st.procs.getD i default with
            is_suspended := true, state := PState.waiting } := by
      rw [hst1]
      exact getD_set_self _ _ _ hlen
    have hns : (st1.procs.getD i default).state ≠ PState.running := by
      rw [hgd]
      simp
    have hsp := schedule_next_process_spec st1 i j rest
      (by rw [hrq1]; exact hq) hc hij hns
    refine ⟨?_, ?_, hsp.2.2.1, hsp.2.2.2.1, hsp.2.2.2.2⟩
    · rw [hsp.1, hgd]
    · rw [hsp.2.1, hgd]
  · intro hsus
    unfold resume_process
    rw [hfind]
    dsimp only
    rw [if_pos hsus]
    set st2 : ProcState :=
      { st with procs :=
          (st.procs.set i
            { st.procs.getD i default with
              is_suspended := false, state := PState.ready }) } with hst2
    have hst : (st2.procs.getD i default).state = PState.ready := by
      rw [hst2]
      rw [getD_set_self _ _ _ hlen]
    obtain ⟨hmem, hpr⟩ := add_to_ready_queue_spec st2 i hst
    refine ⟨?_, hmem⟩
    rw [hpr]
    exact hst

/-- Witness for C8: suspending the RUNNING process (pid 1, slot 0) of
`traceRun` — whose ready queue is `[1]` — makes it WAITING, empties the
queue, and switches to slot 1. -/
theorem c8_suspend_running_only_resume_reinserts_witness :
    ((suspend_process traceRun 1).procs.getD 0 default).state = PState.waiting
    ∧ ((suspend_process traceRun 1).procs.getD 0 default).is_suspended = true
    ∧ (suspend_process traceRun 1).ready_queue = []
    ∧ (suspend_process traceRun 1).current_process = some 1
    ∧ (suspend_process traceRun 1).stats.context_switches
        = (traceRun.stats.context_switches + 1) % U64 :=
  (c8_suspend_running_only_resume_reinserts traceRun 1 0 (by decide)).2.1
    1 [] (by decide) (by decide) (by decide) (by decide)

/-- Witness for C10: the double-free scenario on `doubleFreeHeap`
(allocate 100 bytes, allocate 200 bytes, free the first, then free the
first again). -/
theorem c10_double_free_accepted_and_recounted_witness :
    free doubleFreeHeap (HEAP_START + sumFootprint [] + HEADER_SIZE) =
      { doubleFreeHeap with stats :=
          { doubleFreeHeap.stats with
            used_memory := sub64 doubleFreeHeap.stats.used_memory 104
            free_memory := (doubleFreeHeap.stats.free_memory + 104) % U64
            allocated_blocks := sub32 doubleFreeHeap.stats.allocated_blocks 1
            free_blocks := (doubleFreeHeap.stats.free_blocks + 1) % U32 } } :=
  c10_double_free_accepted_and_recounted doubleFreeHeap []
    [⟨200, false, BLOCK_MAGIC_ALLOCATED⟩, ⟨8388208, true, BLOCK_MAGIC_FREE⟩]
    ⟨104, true, BLOCK_MAGIC_FREE⟩
    (by decide) rfl rfl rfl
    (by intro x hx; cases hx)
    (by intro y hy; cases hy; rfl)
    (by decide)

end HellOS
